import Mathlib

/-!
Verification of the thread-pool core of `rust-tutorial-webserver`
(`src/lib.rs`), against its natural-language specification.

Two layers are embedded:

1. A *structural* model mirroring the Rust data types and the pure
   control flow of `PoolCreationError`, `ThreadPool::new`,
   `ThreadPool::build`, `ThreadPool::gen_thread_pool`,
   `ThreadPool::execute`, and `impl Drop for ThreadPool`.
   Rust functions that can panic return `Except Panic _`; `assert!`
   failure and `Option::unwrap` on `None` are the two panic sources in
   the modelled code.  The mpsc channel is identified by a numeric
   token (`0`); an `Arc` clone of the receiver is the same token, so
   "shared handle to the receive side" is "holds token `0`".

2. An *operational* model of the runtime: the main thread submits jobs
   through the channel (`ThreadPool::execute`), then begins teardown
   (`Drop`), while each worker thread runs the fetch-execute loop of
   `Worker::new` (`receiver.lock().unwrap().recv()` — the mutex guard
   is a temporary that dies at the end of the `let` statement, so the
   lock covers exactly the `recv` and is released before `job()`
   runs).  Jobs are identified by numeric tokens; the channel is a
   FIFO queue; a worker in the `fetching` state is the (unique) holder
   of the mutex, blocked in `recv`.
-/

namespace TutorialWebserver

/-- A Rust panic, abstracted to its source in the modelled code. -/
inductive Panic where
  /-- `assert!(size > 0)` failed in `ThreadPool::new`. -/
  | assertFailed
  /-- `Option::unwrap` was called on `None` (`self.sender.as_ref().unwrap()`). -/
  | unwrapNone
deriving DecidableEq, Repr

/-- `PoolCreationError { given_size: usize }` from `src/lib.rs`. -/
structure PoolCreationError where
  given_size : Nat
deriving DecidableEq, Repr

/-- The `impl fmt::Display for PoolCreationError`: writes
`"Error creating ThreadPool: Invalid size. Given size: {}"` with the
stored size rendered in decimal. -/
def PoolCreationError.displayString (e : PoolCreationError) : String :=
  "Error creating ThreadPool: Invalid size. Given size: " ++ Nat.repr e.given_size

/-- `Worker { id: usize, thread: Option<JoinHandle<()>> }`, extended with
the receiver token the worker's closure captured (the `Arc` clone it was
given at construction). A live join handle is `some ()`. -/
structure Worker where
  id : Nat
  receiver : Nat
  thread : Option Unit
deriving DecidableEq, Repr

/-- `Worker::new(id, receiver)`: spawns the loop thread (handle present)
and stores the id. -/
def Worker.new (id : Nat) (receiver : Nat) : Worker :=
  { id := id, receiver := receiver, thread := some () }

/-- `ThreadPool { workers: Vec<Worker>, sender: Option<mpsc::Sender<Job>> }`.
The sender, when present, is the token of the channel it feeds. -/
structure ThreadPool where
  workers : List Worker
  sender : Option Nat
deriving DecidableEq, Repr

/-- `ThreadPool::gen_thread_pool(size)`: create the channel (token `0`),
wrap the receiver in `Arc<Mutex<_>>`, push `Worker::new(n, Arc::clone(&receiver))`
for `n in 0..size`, and store the sender. -/
def ThreadPool.gen_thread_pool (size : Nat) : ThreadPool :=
  { workers := (List.range size).map fun n => Worker.new n 0,
    sender := some 0 }

/-- `ThreadPool::new(size)`: `assert!(size > 0)` then `gen_thread_pool`. -/
def ThreadPool.new (size : Nat) : Except Panic ThreadPool :=
  if 0 < size then Except.ok (ThreadPool.gen_thread_pool size)
  else Except.error Panic.assertFailed

/-- `ThreadPool::build(size)`: `Ok(gen_thread_pool(size))` for positive
size, otherwise `Err(PoolCreationError { given_size: size })`.  No
expression in its body can panic, so the outer `Except Panic` is always
`ok`. -/
def ThreadPool.build (size : Nat) :
    Except Panic (Except PoolCreationError ThreadPool) :=
  if 0 < size then Except.ok (Except.ok (ThreadPool.gen_thread_pool size))
  else Except.ok (Except.error { given_size := size })

/-- `ThreadPool::execute`: `self.sender.as_ref().unwrap().send(job)`.
The channel's buffer is passed explicitly (`chan`); a successful send
appends the job to it.  `as_ref().unwrap()` panics when `sender` is
`None` (after `Drop` has taken it). -/
def ThreadPool.execute (p : ThreadPool) (job : Nat) (chan : List Nat) :
    Except Panic (List Nat) :=
  match p.sender with
  | some _ => Except.ok (chan ++ [job])
  | none => Except.error Panic.unwrapNone

/-- An observable event of the teardown sequence in `impl Drop for ThreadPool`. -/
inductive DropEvent where
  /-- `drop(self.sender.take())`: the send side is closed. -/
  | closeSender
  /-- `worker.thread.take()` followed by `thread.join().unwrap()` for the
  worker with this id. -/
  | joinWorker (id : Nat)
deriving DecidableEq, Repr

/-- `impl Drop for ThreadPool`: first `drop(self.sender.take())`, then for
each worker in order, `if let Some(thread) = worker.thread.take()`,
`thread.join()`.  Returns the pool as mutated by `take`s and the ordered
event trace. -/
def ThreadPool.dropPool (p : ThreadPool) : ThreadPool × List DropEvent :=
  ({ workers := p.workers.map fun w => { w with thread := none },
     sender := none },
   DropEvent.closeSender ::
     p.workers.filterMap fun w => w.thread.map fun _ => DropEvent.joinWorker w.id)

/-- The status of one worker thread in the loop spawned by `Worker::new`:
`idle` — between iterations, not holding the mutex;
`fetching` — holding the mutex, inside `receiver.lock().unwrap().recv()`;
`running j` — mutex released (the guard was a temporary of the `let`
statement), executing `job()` for job `j`;
`terminated` — `recv` returned `Err`, the loop did `break`. -/
inductive WStatus where
  | idle
  | fetching
  | running (j : Nat)
  | terminated
deriving DecidableEq, Repr

/-- Global state of the running system: the main thread's remaining
submissions (`pending`, in program order), the channel buffer (`queue`,
FIFO), whether `Drop` has taken the sender (`closed`), each worker
thread's status (`workers`, indexed by worker id), the jobs fetched out
of `recv` in fetch order (`delivered`), and the finished `job()` calls in
completion order (`executed`). -/
structure SysState where
  pending : List Nat
  queue : List Nat
  closed : Bool
  workers : List WStatus
  delivered : List Nat
  executed : List Nat
deriving DecidableEq, Repr

/-- Initial state: a pool of `size` freshly spawned idle workers, jobs
`0, 1, ..., N-1` about to be submitted in that order, channel empty and
open. -/
def initState (size N : Nat) : SysState :=
  { pending := List.range N, queue := [], closed := false,
    workers := List.replicate size WStatus.idle,
    delivered := [], executed := [] }

/-- The job a worker in the given status is currently executing, if any. -/
def jobOf : WStatus → Option Nat
  | WStatus.running j => some j
  | _ => none

/-- The jobs currently being executed by some worker. -/
def runningJobs (ws : List WStatus) : List Nat :=
  ws.filterMap jobOf

/-- One interleaved step of the system.

`submit`: the main thread calls `execute`, `sender.send(job)` appends to
the channel (only while the sender has not been taken).
`close`: the main thread, after all submissions, enters `Drop` and runs
`drop(self.sender.take())`.
`acquire`: an idle worker wins `receiver.lock()`; requires no other
worker to hold the mutex.
`fetchJob`: the lock holder's `recv()` returns `Ok(job)` with the head
of the FIFO buffer; the guard is dropped, so the mutex is released and
the worker goes on to run the job.
`fetchClosed`: the lock holder's `recv()` returns `Err` — buffer empty
and sender dropped; the worker breaks out of the loop.
`finish`: a worker finishes `job()` and loops back to idle.

A lock holder with an empty buffer and a live sender has no enabled
transition: it blocks inside `recv`, holding the mutex. -/
inductive Step : SysState → SysState → Prop where
  | submit (s : SysState) (j : Nat) (rest : List Nat)
      (hp : s.pending = j :: rest) (hc : s.closed = false) :
      Step s { s with pending := rest, queue := s.queue ++ [j] }
  | close (s : SysState)
      (hp : s.pending = []) (hc : s.closed = false) :
      Step s { s with closed := true }
  | acquire (s : SysState) (i : Nat)
      (hw : s.workers[i]? = some WStatus.idle)
      (hl : WStatus.fetching ∉ s.workers) :
      Step s { s with workers := s.workers.set i WStatus.fetching }
  | fetchJob (s : SysState) (i j : Nat) (q : List Nat)
      (hw : s.workers[i]? = some WStatus.fetching)
      (hq : s.queue = j :: q) :
      Step s { s with workers := s.workers.set i (WStatus.running j),
                      queue := q,
                      delivered := s.delivered ++ [j] }
  | fetchClosed (s : SysState) (i : Nat)
      (hw : s.workers[i]? = some WStatus.fetching)
      (hq : s.queue = []) (hc : s.closed = true) :
      Step s { s with workers := s.workers.set i WStatus.terminated }
  | finish (s : SysState) (i j : Nat)
      (hw : s.workers[i]? = some (WStatus.running j)) :
      Step s { s with workers := s.workers.set i WStatus.idle,
                      executed := s.executed ++ [j] }

/-- States reachable by the pool of `size` workers given `N` jobs. -/
def Reachable (size N : Nat) (s : SysState) : Prop :=
  Relation.ReflTransGen Step (initState size N) s

/-- Conservation invariant behind exactly-once execution: at every
moment the finished jobs, the jobs in workers' hands, the channel
buffer, and the not-yet-submitted jobs together form a permutation of
the full job list `L`. -/
def invMultiset (L : List Nat) (s : SysState) : Prop :=
  (s.executed ++ (runningJobs s.workers ++ (s.queue ++ s.pending))).Perm L

/-- FIFO invariant: the worker count never changes; the fetch log
followed by the channel buffer followed by the unsubmitted jobs is
*exactly* the submission-ordered job list (so the fetch log is always a
prefix of the submission order); and with a single worker the completed
jobs followed by the in-hand job reproduce the fetch log (execution is
fully serialized in submission order). -/
def fifoInv (size N : Nat) (s : SysState) : Prop :=
  s.workers.length = size ∧
  s.delivered ++ (s.queue ++ s.pending) = List.range N ∧
  (size = 1 → s.executed ++ runningJobs s.workers = s.delivered)

/-- Demo run, pool of size 1, one job: the seven states the system
passes through from construction to the worker observing closure. -/
def demoA0 : SysState :=
  { pending := [0], queue := [], closed := false,
    workers := [WStatus.idle], delivered := [], executed := [] }

/-- After `execute` sends job 0. -/
def demoA1 : SysState := { demoA0 with pending := [], queue := [0] }

/-- After `Drop` takes the sender. -/
def demoA2 : SysState := { demoA1 with closed := true }

/-- The worker wins the mutex and enters `recv`. -/
def demoA3 : SysState := { demoA2 with workers := [WStatus.fetching] }

/-- `recv` yields job 0; the guard is dropped and the job runs. -/
def demoA4 : SysState :=
  { pending := [], queue := [], closed := true,
    workers := [WStatus.running 0], delivered := [0], executed := [] }

/-- Job 0 finishes. -/
def demoA5 : SysState := { demoA4 with workers := [WStatus.idle], executed := [0] }

/-- The worker re-acquires the mutex. -/
def demoA6 : SysState := { demoA5 with workers := [WStatus.fetching] }

/-- `recv` returns `Err`: the loop breaks, the thread can be joined. -/
def demoA7 : SysState := { demoA6 with workers := [WStatus.terminated] }

/-- Demo run, pool of size 2, two jobs, driven to the point where both
workers execute distinct jobs at the same time. -/
def demoB0 : SysState :=
  { pending := [0, 1], queue := [], closed := false,
    workers := [WStatus.idle, WStatus.idle], delivered := [], executed := [] }

/-- Job 0 submitted. -/
def demoB1 : SysState := { demoB0 with pending := [1], queue := [0] }

/-- Job 1 submitted. -/
def demoB2 : SysState := { demoB1 with pending := [], queue := [0, 1] }

/-- Worker 0 holds the mutex. -/
def demoB3 : SysState := { demoB2 with workers := [WStatus.fetching, WStatus.idle] }

/-- Worker 0 fetched job 0, released the mutex, and is running it. -/
def demoB4 : SysState :=
  { pending := [], queue := [1], closed := false,
    workers := [WStatus.running 0, WStatus.idle], delivered := [0], executed := [] }

/-- Worker 1 holds the mutex while worker 0 is still running job 0. -/
def demoB5 : SysState :=
  { demoB4 with workers := [WStatus.running 0, WStatus.fetching] }

/-- Both workers run distinct jobs concurrently. -/
def demoB6 : SysState :=
  { pending := [], queue := [], closed := false,
    workers := [WStatus.running 0, WStatus.running 1],
    delivered := [0, 1], executed := [] }

/-- `filterMap` over a cons, written with `Option.toList` so that both
branches of `f a` share one shape. -/
lemma filterMap_cons_toList {α β : Type} (f : α → Option β) (a : α) (l : List α) :
    (a :: l).filterMap f = (f a).toList ++ l.filterMap f := by
  cases h : f a <;> simp [List.filterMap_cons, h]

/-- Updating index `i` (which holds `a`) to `b` changes the `filterMap`
of a list only by trading the contribution of `a` for that of `b`, up to
permutation. -/
lemma filterMap_set_perm {α β : Type} (f : α → Option β) :
    ∀ (l : List α) (i : Nat) (a b : α), l[i]? = some a →
      ((f a).toList ++ (l.set i b).filterMap f).Perm
        ((f b).toList ++ l.filterMap f) := by
  intro l
  induction l with
  | nil => intro i a b h; simp at h
  | cons x t ih =>
    intro i a b h
    cases i with
    | zero =>
      simp only [List.getElem?_cons_zero, Option.some.injEq] at h
      subst h
      show ((f x).toList ++ (b :: t).filterMap f).Perm
        ((f b).toList ++ (x :: t).filterMap f)
      rw [filterMap_cons_toList, filterMap_cons_toList,
        ← List.append_assoc, ← List.append_assoc]
      exact List.perm_append_comm.append_right _
    | succ n =>
      simp only [List.getElem?_cons_succ] at h
      show ((f a).toList ++ (x :: t.set n b).filterMap f).Perm
        ((f b).toList ++ (x :: t).filterMap f)
      rw [filterMap_cons_toList, filterMap_cons_toList]
      calc (f a).toList ++ ((f x).toList ++ (t.set n b).filterMap f)
          = ((f a).toList ++ (f x).toList) ++ (t.set n b).filterMap f := by
            rw [List.append_assoc]
        _ ≈ ((f x).toList ++ (f a).toList) ++ (t.set n b).filterMap f :=
            List.perm_append_comm.append_right _
        _ = (f x).toList ++ ((f a).toList ++ (t.set n b).filterMap f) := by
            rw [List.append_assoc]
        _ ≈ (f x).toList ++ ((f b).toList ++ t.filterMap f) :=
            (ih n a b h).append_left _
        _ = ((f x).toList ++ (f b).toList) ++ t.filterMap f := by
            rw [List.append_assoc]
        _ ≈ ((f b).toList ++ (f x).toList) ++ t.filterMap f :=
            List.perm_append_comm.append_right _
        _ = (f b).toList ++ ((f x).toList ++ t.filterMap f) := by
            rw [List.append_assoc]

/-- Updating an index whose old and new entries both contribute nothing
leaves the `filterMap` unchanged (as a list, not just a permutation). -/
lemma filterMap_set_none {α β : Type} (f : α → Option β) :
    ∀ (l : List α) (i : Nat) (a b : α), l[i]? = some a →
      f a = none → f b = none → (l.set i b).filterMap f = l.filterMap f := by
  intro l
  induction l with
  | nil => intro i a b h _ _; simp at h
  | cons x t ih =>
    intro i a b h ha hb
    cases i with
    | zero =>
      simp only [List.getElem?_cons_zero, Option.some.injEq] at h
      subst h
      show (b :: t).filterMap f = (x :: t).filterMap f
      rw [filterMap_cons_toList, filterMap_cons_toList, ha, hb]
    | succ n =>
      simp only [List.getElem?_cons_succ] at h
      show (x :: t.set n b).filterMap f = (x :: t).filterMap f
      rw [filterMap_cons_toList, filterMap_cons_toList, ih n a b h ha hb]

/-- A worker pool with every thread terminated executes nothing. -/
lemma runningJobs_eq_nil {ws : List WStatus}
    (ht : ∀ w ∈ ws, w = WStatus.terminated) : runningJobs ws = [] := by
  unfold runningJobs
  rw [List.filterMap_eq_nil_iff]
  intro a ha
  rw [ht a ha]
  rfl

/-- Each interleaved step preserves the conservation invariant: a job
only ever moves between the four places (unsubmitted, buffered, in a
worker's hand, finished), it is never duplicated or lost. -/
lemma invMultiset_step {L : List Nat} {s s' : SysState}
    (h : Step s s') (hi : invMultiset L s) : invMultiset L s' := by
  unfold invMultiset at hi
  cases h with
  | submit j rest hp hc =>
    show (s.executed ++ (runningJobs s.workers ++ ((s.queue ++ [j]) ++ rest))).Perm L
    rw [hp] at hi
    simpa [List.append_assoc] using hi
  | close hp hc => exact hi
  | acquire i hw hl =>
    show (s.executed ++ ((s.workers.set i WStatus.fetching).filterMap jobOf ++
        (s.queue ++ s.pending))).Perm L
    rw [filterMap_set_none jobOf s.workers i WStatus.idle WStatus.fetching hw rfl rfl]
    exact hi
  | fetchJob i j q hw hq =>
    have hperm : (runningJobs (s.workers.set i (WStatus.running j))).Perm
        (j :: runningJobs s.workers) := by
      have h1 := filterMap_set_perm jobOf s.workers i WStatus.fetching
        (WStatus.running j) hw
      simpa [runningJobs, jobOf] using h1
    show (s.executed ++ (runningJobs (s.workers.set i (WStatus.running j)) ++
        (q ++ s.pending))).Perm L
    rw [hq] at hi
    have h2 : (runningJobs (s.workers.set i (WStatus.running j)) ++
        (q ++ s.pending)).Perm (runningJobs s.workers ++ ((j :: q) ++ s.pending)) :=
      (hperm.append_right (q ++ s.pending)).trans List.perm_middle.symm
    exact (h2.append_left s.executed).trans hi
  | fetchClosed i hw hq hc =>
    show (s.executed ++ ((s.workers.set i WStatus.terminated).filterMap jobOf ++
        (s.queue ++ s.pending))).Perm L
    rw [filterMap_set_none jobOf s.workers i WStatus.fetching WStatus.terminated
      hw rfl rfl]
    exact hi
  | finish i j hw =>
    have hperm : (j :: runningJobs (s.workers.set i WStatus.idle)).Perm
        (runningJobs s.workers) := by
      have h1 := filterMap_set_perm jobOf s.workers i (WStatus.running j)
        WStatus.idle hw
      simpa [runningJobs, jobOf] using h1
    show ((s.executed ++ [j]) ++ (runningJobs (s.workers.set i WStatus.idle) ++
        (s.queue ++ s.pending))).Perm L
    have h2 : (s.executed ++ [j]) ++ (runningJobs (s.workers.set i WStatus.idle) ++
        (s.queue ++ s.pending))
        = s.executed ++ ((j :: runningJobs (s.workers.set i WStatus.idle)) ++
          (s.queue ++ s.pending)) := by
      simp [List.append_assoc]
    rw [h2]
    exact ((hperm.append_right (s.queue ++ s.pending)).append_left s.executed).trans hi

/-- The conservation invariant holds in every reachable state. -/
lemma invMultiset_reach {size N : Nat} {s : SysState} (h : Reachable size N s) :
    invMultiset (List.range N) s := by
  unfold Reachable at h
  induction h with
  | refl => simp [invMultiset, initState, runningJobs, jobOf]
  | tail _ hstep ih => exact invMultiset_step hstep ih

/-- The size-1 demo run is a genuine execution of the system. -/
lemma reach_demoA7 : Reachable 1 1 demoA7 := by
  have h0 : Step demoA0 demoA1 := Step.submit demoA0 0 [] rfl rfl
  have h1 : Step demoA1 demoA2 := Step.close demoA1 rfl rfl
  have h2 : Step demoA2 demoA3 := Step.acquire demoA2 0 rfl (by decide)
  have h3 : Step demoA3 demoA4 := Step.fetchJob demoA3 0 0 [] rfl rfl
  have h4 : Step demoA4 demoA5 := Step.finish demoA4 0 0 rfl
  have h5 : Step demoA5 demoA6 := Step.acquire demoA5 0 rfl (by decide)
  have h6 : Step demoA6 demoA7 := Step.fetchClosed demoA6 0 rfl rfl rfl
  have e : initState 1 1 = demoA0 := by decide
  unfold Reachable
  rw [e]
  exact Relation.ReflTransGen.tail (Relation.ReflTransGen.tail
    (Relation.ReflTransGen.tail (Relation.ReflTransGen.tail
      (Relation.ReflTransGen.tail (Relation.ReflTransGen.tail
        (Relation.ReflTransGen.single h0) h1) h2) h3) h4) h5) h6

/-- C1: for any number `N` of jobs submitted via `execute` to a pool of
any positive size, once the pool has been dropped (all submissions done,
channel drained, every worker loop exited), the completed-execution log
is a permutation of the submitted job list: every job was invoked
exactly once — none twice, none dropped, none re-queued. -/
theorem jobs_executed_exactly_once (size N : Nat) (hsize : 0 < size)
    (s : SysState) (hr : Reachable size N s)
    (hpend : s.pending = []) (hqueue : s.queue = [])
    (hterm : ∀ w ∈ s.workers, w = WStatus.terminated) :
    s.executed.Perm (List.range N) := by
  have hi := invMultiset_reach hr
  unfold invMultiset at hi
  rw [hpend, hqueue, runningJobs_eq_nil hterm] at hi
  simpa using hi

/-- Witness for C1 on the size-1 demo run: the single submitted job was
executed exactly once. -/
theorem jobs_executed_exactly_once_witness :
    0 < 1 ∧ demoA7.executed.Perm (List.range 1) :=
  ⟨by decide, jobs_executed_exactly_once 1 1 (by decide) demoA7 reach_demoA7
    rfl rfl (by decide)⟩

/-- Each interleaved step preserves the FIFO invariant. -/
lemma fifoInv_step {size N : Nat} {s s' : SysState}
    (h : Step s s') (hi : fifoInv size N s) : fifoInv size N s' := by
  obtain ⟨hlen, hfifo, hone⟩ := hi
  cases h with
  | submit j rest hp hc =>
    refine ⟨hlen, ?_, hone⟩
    show s.delivered ++ ((s.queue ++ [j]) ++ rest) = List.range N
    rw [hp] at hfifo
    simpa [List.append_assoc] using hfifo
  | close hp hc => exact ⟨hlen, hfifo, hone⟩
  | acquire i hw hl =>
    refine ⟨by simpa using hlen, hfifo, ?_⟩
    intro h1
    show s.executed ++ (s.workers.set i WStatus.fetching).filterMap jobOf
        = s.delivered
    rw [filterMap_set_none jobOf s.workers i WStatus.idle WStatus.fetching
      hw rfl rfl]
    exact hone h1
  | fetchJob i j q hw hq =>
    refine ⟨by simpa using hlen, ?_, ?_⟩
    · show (s.delivered ++ [j]) ++ (q ++ s.pending) = List.range N
      rw [hq] at hfifo
      simpa [List.append_assoc] using hfifo
    · intro h1
      obtain ⟨a, ha⟩ := List.length_eq_one.mp (by rw [hlen]; exact h1)
      rw [ha] at hw
      cases i with
      | zero =>
        have hprev := hone h1
        rw [ha] at hprev
        simp only [List.getElem?_cons_zero, Option.some.injEq] at hw
        subst hw
        show s.executed ++ runningJobs (s.workers.set 0 (WStatus.running j))
            = s.delivered ++ [j]
        rw [ha]
        show s.executed ++ [j] = s.delivered ++ [j]
        have hde : s.executed = s.delivered := by
          simpa [runningJobs, jobOf] using hprev
        rw [hde]
      | succ n => simp at hw
  | fetchClosed i hw hq hc =>
    refine ⟨by simpa using hlen, hfifo, ?_⟩
    intro h1
    show s.executed ++ (s.workers.set i WStatus.terminated).filterMap jobOf
        = s.delivered
    rw [filterMap_set_none jobOf s.workers i WStatus.fetching WStatus.terminated
      hw rfl rfl]
    exact hone h1
  | finish i j hw =>
    refine ⟨by simpa using hlen, hfifo, ?_⟩
    intro h1
    obtain ⟨a, ha⟩ := List.length_eq_one.mp (by rw [hlen]; exact h1)
    rw [ha] at hw
    cases i with
    | zero =>
      have hprev := hone h1
      rw [ha] at hprev
      simp only [List.getElem?_cons_zero, Option.some.injEq] at hw
      subst hw
      show (s.executed ++ [j]) ++ runningJobs (s.workers.set 0 WStatus.idle)
          = s.delivered
      rw [ha]
      show (s.executed ++ [j]) ++ [] = s.delivered
      rw [List.append_nil]
      simpa [runningJobs, jobOf] using hprev
    | succ n => simp at hw

/-- The FIFO invariant holds in every reachable state. -/
lemma fifoInv_reach {size N : Nat} {s : SysState} (h : Reachable size N s) :
    fifoInv size N s := by
  unfold Reachable at h
  induction h with
  | refl =>
    refine ⟨by simp [initState], by simp [initState], fun _ => ?_⟩
    simp [initState, runningJobs, jobOf]
  | tail _ hstep ih => exact fifoInv_step hstep ih

/-- C4: jobs are delivered to workers in submission order (the fetch log
followed by buffered and unsubmitted jobs is exactly the submission
list, so the fetch log is a prefix of the submission order); and for a
pool of size 1 the completed executions followed by the in-hand job
equal the fetch log, so a job submitted earlier starts and finishes
before the next one starts. -/
theorem fifo_delivery (size N : Nat) (s : SysState) (hr : Reachable size N s) :
    s.delivered ++ (s.queue ++ s.pending) = List.range N ∧
    (size = 1 → s.executed ++ runningJobs s.workers = s.delivered) :=
  ⟨(fifoInv_reach hr).2.1, (fifoInv_reach hr).2.2⟩

/-- Witness for C4 on the size-1 demo run. -/
theorem fifo_delivery_witness :
    demoA7.delivered ++ (demoA7.queue ++ demoA7.pending) = List.range 1 ∧
    demoA7.executed ++ runningJobs demoA7.workers = demoA7.delivered :=
  ⟨(fifo_delivery 1 1 demoA7 reach_demoA7).1,
   (fifo_delivery 1 1 demoA7 reach_demoA7).2 rfl⟩

/-- An index of the updated list holding `fetching` when the update
wrote a non-`fetching` status must be a different index, already holding
`fetching` before the update. -/
lemma set_fetch_unique {ws : List WStatus} {i k : Nat} {b : WStatus}
    (hb : b ≠ WStatus.fetching)
    (hk : (ws.set i b)[k]? = some WStatus.fetching) :
    k ≠ i ∧ ws[k]? = some WStatus.fetching := by
  by_cases hik : k = i
  · exfalso
    subst hik
    rcases List.getElem?_eq_some.mp hk with ⟨hlt, hval⟩
    rw [List.getElem_set] at hval
    simp at hval
    exact hb hval
  · exact ⟨hik, by rwa [List.getElem?_set_ne (Ne.symm hik)] at hk⟩

/-- Each interleaved step preserves mutual exclusion on the receiver:
at most one worker is inside `receiver.lock().unwrap().recv()`. -/
lemma mutexInv_step {s s' : SysState} (h : Step s s')
    (hi : ∀ i j : Nat, s.workers[i]? = some WStatus.fetching →
      s.workers[j]? = some WStatus.fetching → i = j) :
    ∀ i j : Nat, s'.workers[i]? = some WStatus.fetching →
      s'.workers[j]? = some WStatus.fetching → i = j := by
  cases h with
  | submit j rest hp hc => exact hi
  | close hp hc => exact hi
  | acquire i hw hl =>
    intro a b ha hb
    have key : ∀ k, (s.workers.set i WStatus.fetching)[k]? =
        some WStatus.fetching → k = i := by
      intro k hk
      by_cases hik : k = i
      · exact hik
      · exfalso
        rw [List.getElem?_set_ne (Ne.symm hik)] at hk
        exact hl (List.getElem?_mem hk)
    rw [key a ha, key b hb]
  | fetchJob i j q hw hq =>
    intro a b ha hb
    exact hi a b (set_fetch_unique (by simp) ha).2 (set_fetch_unique (by simp) hb).2
  | fetchClosed i hw hq hc =>
    intro a b ha hb
    exact hi a b (set_fetch_unique (by simp) ha).2 (set_fetch_unique (by simp) hb).2
  | finish i j hw =>
    intro a b ha hb
    exact hi a b (set_fetch_unique (by simp) ha).2 (set_fetch_unique (by simp) hb).2

/-- Mutual exclusion on the receiver holds in every reachable state. -/
lemma mutexInv_reach {size N : Nat} {s : SysState} (h : Reachable size N s) :
    ∀ i j : Nat, s.workers[i]? = some WStatus.fetching →
      s.workers[j]? = some WStatus.fetching → i = j := by
  unfold Reachable at h
  induction h with
  | refl =>
    intro i j hi2 _
    exfalso
    have hmem := List.getElem?_mem hi2
    rw [initState] at hmem
    have := List.eq_of_mem_replicate hmem
    simp at this
  | tail _ hstep ih => exact mutexInv_step hstep ih

/-- Prefix of the size-2 demo run: worker 0 holds the mutex. -/
lemma reach_demoB3 : Reachable 2 2 demoB3 := by
  have h0 : Step demoB0 demoB1 := Step.submit demoB0 0 [1] rfl rfl
  have h1 : Step demoB1 demoB2 := Step.submit demoB1 1 [] rfl rfl
  have h2 : Step demoB2 demoB3 := Step.acquire demoB2 0 rfl (by decide)
  have e : initState 2 2 = demoB0 := by decide
  unfold Reachable
  rw [e]
  exact Relation.ReflTransGen.tail (Relation.ReflTransGen.tail
    (Relation.ReflTransGen.single h0) h1) h2

/-- The size-2 demo run reaches the state where both workers execute
distinct jobs at the same time. -/
lemma reach_demoB6 : Reachable 2 2 demoB6 := by
  have h3 : Step demoB3 demoB4 := Step.fetchJob demoB3 0 0 [1] rfl rfl
  have h4 : Step demoB4 demoB5 := Step.acquire demoB4 1 rfl (by decide)
  have h5 : Step demoB5 demoB6 := Step.fetchJob demoB5 1 1 [] rfl rfl
  exact Relation.ReflTransGen.tail (Relation.ReflTransGen.tail
    (Relation.ReflTransGen.tail reach_demoB3 h3) h4) h5

/-- C6: the mutually exclusive access window covers only the fetch. In
every reachable state at most one worker holds the mutex (is inside
`recv`), and since a worker executing a job is in the `running` state —
not the `fetching` state — the lock is released before the job runs:
witnessed by a reachable state of a size-2 pool in which both workers
are executing distinct jobs concurrently. -/
theorem mutex_only_during_fetch :
    (∀ (size N : Nat) (s : SysState), Reachable size N s → ∀ i j : Nat,
        s.workers[i]? = some WStatus.fetching →
        s.workers[j]? = some WStatus.fetching → i = j) ∧
    (∃ s, Reachable 2 2 s ∧
      s.workers = [WStatus.running 0, WStatus.running 1]) :=
  ⟨fun _ _ _ hr => mutexInv_reach hr, ⟨demoB6, reach_demoB6, rfl⟩⟩

/-- Witness for C6: the mutual-exclusion half applied at the concrete
reachable state `demoB3`, where worker 0 holds the mutex. -/
theorem mutex_only_during_fetch_witness : (0 : Nat) = 0 :=
  mutex_only_during_fetch.1 2 2 demoB3 reach_demoB3 0 0 rfl rfl

/-- C2: for every positive size both entry points succeed with the pool
built by `gen_thread_pool`, whose worker list has length `size`, worker
ids `0, 1, ..., size-1` in order, every worker holding the shared handle
(token `0`) to the receive side of the channel whose send side (token
`0`) the pool stores. -/
theorem construction_yields_size_workers (size : Nat) (hsize : 0 < size) :
    ThreadPool.new size = Except.ok (ThreadPool.gen_thread_pool size) ∧
    ThreadPool.build size
      = Except.ok (Except.ok (ThreadPool.gen_thread_pool size)) ∧
    (ThreadPool.gen_thread_pool size).workers.length = size ∧
    (ThreadPool.gen_thread_pool size).workers.map Worker.id = List.range size ∧
    (∀ w ∈ (ThreadPool.gen_thread_pool size).workers, w.receiver = 0) ∧
    (ThreadPool.gen_thread_pool size).sender = some 0 := by
  refine ⟨by simp [ThreadPool.new, hsize], by simp [ThreadPool.build, hsize],
    ?_, ?_, ?_, rfl⟩
  · simp [ThreadPool.gen_thread_pool]
  · simp only [ThreadPool.gen_thread_pool, Worker.new, List.map_map]
    exact List.map_id (List.range size)
  · intro w hw
    simp only [ThreadPool.gen_thread_pool, List.mem_map] at hw
    obtain ⟨n, _, rfl⟩ := hw
    rfl

/-- Witness for C2 at size 4 (the size used by the repository's own
doctests). -/
theorem construction_yields_size_workers_witness :
    0 < 4 ∧ (ThreadPool.gen_thread_pool 4).workers.length = 4 ∧
      (ThreadPool.gen_thread_pool 4).workers.map Worker.id = List.range 4 :=
  ⟨by decide, (construction_yields_size_workers 4 (by decide)).2.2.1,
    (construction_yields_size_workers 4 (by decide)).2.2.2.1⟩

/-- C3: for size 0 the fatal entry point `ThreadPool::new` panics (the
`assert!` fails) and the recoverable entry point `ThreadPool::build`
returns (without panicking) an error whose stored size is 0 — no pool is
created on either path. -/
theorem zero_size_construction_fails :
    ThreadPool.new 0 = Except.error Panic.assertFailed ∧
    ThreadPool.build 0
      = Except.ok (Except.error { given_size := 0 }) := by
  constructor <;> rfl

/-- C5: dropping a freshly constructed pool closes the send side first —
the `closeSender` event is the head of the teardown trace, so it
precedes every join — and then joins the workers one by one in the order
of the `workers` vector (ids `0, 1, ..., size-1`, each exactly once);
afterwards the sender is gone and every worker's join handle has been
consumed. -/
theorem drop_closes_sender_then_joins_in_order (size : Nat) :
    (ThreadPool.gen_thread_pool size).dropPool.2
      = DropEvent.closeSender :: (List.range size).map DropEvent.joinWorker ∧
    (ThreadPool.gen_thread_pool size).dropPool.1.sender = none ∧
    (∀ w ∈ (ThreadPool.gen_thread_pool size).dropPool.1.workers,
      w.thread = none) ∧
    (ThreadPool.gen_thread_pool size).dropPool.2.Nodup := by
  have hev : (ThreadPool.gen_thread_pool size).dropPool.2
      = DropEvent.closeSender :: (List.range size).map DropEvent.joinWorker := by
    simp only [ThreadPool.dropPool, ThreadPool.gen_thread_pool, Worker.new,
      List.filterMap_map]
    congr 1
    induction List.range size with
    | nil => rfl
    | cons x t ih => simpa using ih
  refine ⟨hev, rfl, ?_, ?_⟩
  · intro w hw
    simp only [ThreadPool.dropPool, List.mem_map] at hw
    obtain ⟨v, _, rfl⟩ := hw
    rfl
  · rw [hev]
    refine List.Nodup.cons ?_ ?_
    · simp
    · refine List.Nodup.map ?_ (List.nodup_range size)
      intro a b hab
      simpa using hab

/-- C7: for every positive size the two construction entry points agree:
`build` returns `Ok` of exactly the pool `new` returns; they can only
differ at size 0. -/
theorem build_agrees_with_new (size : Nat) (hsize : 0 < size) :
    ThreadPool.build size = (ThreadPool.new size).map Except.ok := by
  simp [ThreadPool.build, ThreadPool.new, hsize, Except.map]

/-- Witness for C7 at size 3. -/
theorem build_agrees_with_new_witness :
    ThreadPool.build 3 = (ThreadPool.new 3).map Except.ok :=
  build_agrees_with_new 3 (by decide)

/-- C8: rendering `PoolCreationError` for display produces exactly
"Error creating ThreadPool: Invalid size. Given size: n" with the stored
size substituted in decimal; in particular at 0 it is the exact string
the repository's test asserts. -/
theorem pool_creation_error_display :
    (∀ n : Nat, PoolCreationError.displayString { given_size := n }
      = "Error creating ThreadPool: Invalid size. Given size: " ++ Nat.repr n) ∧
    PoolCreationError.displayString { given_size := 0 }
      = "Error creating ThreadPool: Invalid size. Given size: 0" :=
  ⟨fun _ => rfl, rfl⟩

/-- C9: calling `execute` once the pool's shutdown has begun — the
`sender` field already taken by `Drop` — panics (the
`self.sender.as_ref().unwrap()` hits `None`) instead of silently
dropping the job or blocking. -/
theorem execute_after_shutdown_panics (p : ThreadPool) (hs : p.sender = none)
    (job : Nat) (chan : List Nat) :
    p.execute job chan = Except.error Panic.unwrapNone := by
  unfold ThreadPool.execute
  rw [hs]

/-- Witness for C9: executing on the pool left behind by dropping a
4-worker pool panics. -/
theorem execute_after_shutdown_panics_witness :
    (ThreadPool.gen_thread_pool 4).dropPool.1.sender = none ∧
    (ThreadPool.gen_thread_pool 4).dropPool.1.execute 7 []
      = Except.error Panic.unwrapNone :=
  ⟨rfl, execute_after_shutdown_panics _ rfl 7 []⟩

/-- C10: `ThreadPool::build` is total — for every size it returns
normally (never panics): `Ok(pool)` for positive sizes and
`Err(PoolCreationError)` for size 0. -/
theorem build_never_panics (size : Nat) :
    ∃ r, ThreadPool.build size = Except.ok r ∧
      (0 < size → r = Except.ok (ThreadPool.gen_thread_pool size)) ∧
      (size = 0 → r = Except.error { given_size := 0 }) := by
  by_cases h : 0 < size
  · exact ⟨Except.ok (ThreadPool.gen_thread_pool size),
      by simp [ThreadPool.build, h], fun _ => rfl, fun h0 => by omega⟩
  · have h0 : size = 0 := by omega
    subst h0
    exact ⟨Except.error { given_size := 0 },
      by simp [ThreadPool.build], fun hlt => by omega, fun _ => rfl⟩

end TutorialWebserver
